import Mathlib

/-!
# FastSignal — verification of the Signal/Connection dispatch engine

The repository ships only the TypeScript declaration file
`src/ReplicatedStorage/FastSignal/index.d.ts`; the implementation behind the
declared `ScriptSignal` interface is not part of the sources.  The engine is
therefore modelled from the specification: the state of a Signal (ordered
connection registry, waiter registry, active/destroyed flag), the handler
effects that matter for the contract (disconnecting connections, connecting
new ones, re-entrant `Fire`, raising an error), and the operations
`Connect`/`Once`/`Disconnect`/`Wait`/`Fire`/`DisconnectAll`/`Destroy`/`Is`.
Dispatch produces an explicit event log (handler invocations, reported
handler errors, waiter resolutions, failed waits) against which the claims
are stated.
-/

namespace FastSignal

/-- Modelled from the spec: the values a Signal is fired with (`Fire(values...)`
carries an arbitrary tuple; numbers, strings and nil suffice for the contract). -/
inductive Val where
  | num (n : Int)
  | str (s : String)
  | nil
deriving DecidableEq

/-- Modelled from the spec: the effects a handler body may perform that are
visible to the Signal contract — nothing, disconnecting a connection by id,
registering a new connection (ordinary or once) during dispatch, re-entrantly
firing the signal, or raising an error (which aborts the rest of this
handler's body and is reported to the host error sink). -/
inductive Act where
  | nop
  | disconnect (cid : Nat)
  | connectNew (once : Bool) (prog : List Act)
  | fire (vals : List Val)
  | throwErr

/-- Modelled from the spec: a registered connection — its id (the handle
identity), the immutable `once` flag, the `connected` liveness flag, and the
handler body. -/
structure Conn where
  id : Nat
  once : Bool
  connected : Bool
  prog : List Act

/-- Modelled from the spec: the state of a Signal — the ordered sequence of
connections (registration order; the listener registry is the connected
entries), the pending waiter ids, the Active/Destroyed flag, and fresh-id
counters for connections and waiters. -/
structure Sig where
  connections : List Conn
  waiters : List Nat
  active : Bool
  nextConnId : Nat
  nextWaiterId : Nat

/-- A freshly constructed Signal: Active with empty registries. -/
def sigInit : Sig := ⟨[], [], true, 0, 0⟩

/-- Observable events of a run: a handler invocation with the fired arguments,
a handler error reported to the host sink, a waiter resolved with the fired
arguments, and a Wait failing with the "signal destroyed" outcome. -/
inductive Event where
  | invoke (cid : Nat) (args : List Val)
  | handlerError (cid : Nat)
  | resolve (wid : Nat) (args : List Val)
  | waitFailed (wid : Nat)
deriving DecidableEq

/-- Look a connection up by id. -/
def findConn (s : Sig) (cid : Nat) : Option Conn :=
  s.connections.find? (fun c => c.id == cid)

/-- The `Connected` property of the connection handle `cid`. -/
def connConnected (s : Sig) (cid : Nat) : Bool :=
  match findConn s cid with
  | some c => c.connected
  | none => false

/-- Modelled from the spec: `Connection.Disconnect` — flips `connected` to
false for that entry (removing it from the listener registry); idempotent. -/
def disconnectConn (s : Sig) (cid : Nat) : Sig :=
  { s with connections :=
      s.connections.map (fun c => if c.id == cid then { c with connected := false } else c) }

/-- Modelled from the spec: `Connect`/`Once` — on an Active signal appends a
live connection at the end of the registry and returns its id; on a destroyed
signal the returned connection is already disconnected (no-op registration).
The `once` flag records which of the two entry points was used. -/
def connectOp (s : Sig) (once : Bool) (prog : List Act) : Sig × Nat :=
  ({ s with
      connections := s.connections ++ [⟨s.nextConnId, once, s.active, prog⟩],
      nextConnId := s.nextConnId + 1 }, s.nextConnId)

/-- The listener registry: the currently connected entries, in registration
order. -/
def registry (s : Sig) : List Conn := s.connections.filter (fun c => c.connected)

/-- The ids of the currently connected entries, in registration order. -/
def registryIds (s : Sig) : List Nat := (registry s).map (fun c => c.id)

/-- Modelled from the spec: `DisconnectAll` — disconnects every registered
connection without touching the lifecycle state or the waiters. -/
def disconnectAllOp (s : Sig) : Sig :=
  { s with connections := s.connections.map (fun c => { c with connected := false }) }

/-- Modelled from the spec: `Destroy` — disconnects all connections, fails
every pending Wait with the "signal destroyed" outcome, clears the waiter set
and transitions terminally to Destroyed. -/
def destroyOp (s : Sig) : Sig × List Event :=
  ({ disconnectAllOp s with waiters := [], active := false },
   s.waiters.map (fun w => Event.waitFailed w))

/-- The type of the re-entrant Fire oracle threaded through handler
execution. -/
abbrev FireFn := Sig → List Val → Sig × List Event

/-- Modelled from the spec: run a handler body.  Returns the new state, the
events produced by nested re-entrant fires, and whether the body raised an
error (which aborts the remainder of the body). -/
def runActsWith (fire : FireFn) : Sig → List Act → Sig × List Event × Bool
  | s, [] => (s, [], false)
  | s, Act.nop :: rest => runActsWith fire s rest
  | s, Act.throwErr :: _ => (s, [], true)
  | s, Act.disconnect cid :: rest => runActsWith fire (disconnectConn s cid) rest
  | s, Act.connectNew o p :: rest => runActsWith fire (connectOp s o p).1 rest
  | s, Act.fire vals :: rest =>
      if s.active then
        let r := fire s vals
        let r2 := runActsWith fire r.1 rest
        (r2.1, r.2 ++ r2.2.1, r2.2.2)
      else runActsWith fire s rest

/-- Modelled from the spec: dispatch over the snapshot taken at Fire time.
Each snapshotted id is looked up in the current state and skipped unless it is
still connected; a `once` connection is disconnected immediately before its
single invocation; a handler error is reported as an event and does not stop
the remaining handlers. -/
def runSnapWith (fire : FireFn) (args : List Val) : Sig → List Nat → Sig × List Event
  | s, [] => (s, [])
  | s, i :: rest =>
      match findConn s i with
      | some c =>
          if c.connected then
            let s1 := if c.once then disconnectConn s i else s
            let r := runActsWith fire s1 c.prog
            let errEvs := if r.2.2 then [Event.handlerError i] else []
            let r2 := runSnapWith fire args r.1 rest
            (r2.1, (Event.invoke i args :: (r.2.1 ++ errEvs)) ++ r2.2)
          else runSnapWith fire args s rest
      | none => runSnapWith fire args s rest

/-- Modelled from the spec: `Fire` — takes an immutable snapshot of the
currently connected entries, dispatches over it, then resolves every waiter
still pending after dispatch with the fired values and clears the waiter set.
`fuel` bounds the depth of re-entrant fires; a top-level call uses `fuel + 1`
so one full dispatch always runs. -/
def runFire : Nat → Sig → List Val → Sig × List Event
  | 0, s, _ => (s, [])
  | fuel + 1, s, args =>
      let r := runSnapWith (runFire fuel) args s (registryIds s)
      ({ r.1 with waiters := [] }, r.2 ++ r.1.waiters.map (fun w => Event.resolve w args))

/-- The public operations of a Signal, as an external caller issues them. -/
inductive Op where
  | connect (once : Bool) (prog : List Act)
  | disconnect (cid : Nat)
  | wait
  | fire (args : List Val)
  | disconnectAll
  | destroy

/-- Modelled from the spec: one public operation.  `Wait` on an Active signal
registers a pending waiter; on a destroyed signal it fails immediately with
the "signal destroyed" outcome.  `Fire` on a destroyed signal is a no-op. -/
def runOp (fuel : Nat) (s : Sig) : Op → Sig × List Event
  | Op.connect o p => ((connectOp s o p).1, [])
  | Op.disconnect cid => (disconnectConn s cid, [])
  | Op.wait =>
      if s.active then
        ({ s with waiters := s.waiters ++ [s.nextWaiterId],
                  nextWaiterId := s.nextWaiterId + 1 }, [])
      else
        ({ s with nextWaiterId := s.nextWaiterId + 1 }, [Event.waitFailed s.nextWaiterId])
  | Op.fire args => if s.active then runFire fuel s args else (s, [])
  | Op.disconnectAll => (disconnectAllOp s, [])
  | Op.destroy => destroyOp s

/-- Run a sequence of public operations, concatenating the event logs. -/
def runOps (fuel : Nat) : Sig → List Op → Sig × List Event
  | s, [] => (s, [])
  | s, op :: rest =>
      let r := runOp fuel s op
      let r2 := runOps fuel r.1 rest
      (r2.1, r.2 ++ r2.2)

/-- Is this event an invocation of some handler? -/
def isInvoke : Event → Bool
  | Event.invoke _ _ => true
  | _ => false

/-- The invocation events of a log, in order. -/
def invokeEvents (evs : List Event) : List Event := evs.filter isInvoke

/-- Is this event a waiter resolution? -/
def isResolve : Event → Bool
  | Event.resolve _ _ => true
  | _ => false

/-- The waiter-resolution events of a log, in order. -/
def resolveEvents (evs : List Event) : List Event := evs.filter isResolve

/-- Is this event an invocation of handler `cid`? -/
def isInvokeOf (cid : Nat) : Event → Bool
  | Event.invoke i _ => i == cid
  | _ => false

/-- How many times handler `cid` was invoked in a log. -/
def countInvoke (cid : Nat) (evs : List Event) : Nat := evs.countP (isInvokeOf cid)

/-- A handler action with no effect on the signal: `nop` or an error raise. -/
def passiveAct : Act → Bool
  | Act.nop => true
  | Act.throwErr => true
  | _ => false

/-- A handler body built only from passive actions. -/
def passiveProg (p : List Act) : Bool := p.all passiveAct

/-- Is this handler action the error raise? -/
def throwAct : Act → Bool
  | Act.throwErr => true
  | _ => false

/-- Does this handler body raise an error when run? -/
def hasThrowProg (p : List Act) : Bool := p.any throwAct

/-- Does the handler body of the connection `i` (if any) raise an error? -/
def hasThrowAt (s : Sig) (i : Nat) : Bool :=
  match findConn s i with
  | some c => hasThrowProg c.prog
  | none => false

/-- Is the handler body of the connection `i` (if any) passive? -/
def passiveAt (s : Sig) (i : Nat) : Bool :=
  match findConn s i with
  | some c => passiveProg c.prog
  | none => true

/-- The event log of dispatch over snapshot `ids` when every reached handler
is passive: each id is invoked once in order, followed by its error report
when its body raises. -/
def snapEvents (s : Sig) (args : List Val) : List Nat → List Event
  | [] => []
  | i :: rest =>
      Event.invoke i args ::
        ((if hasThrowAt s i then [Event.handlerError i] else []) ++ snapEvents s args rest)

/-- A handler action that never re-enters `Fire` and only registers passive
handlers: the fragment for which a single dispatch's snapshot discipline is
stated. -/
def snapSafeAct : Act → Bool
  | Act.fire _ => false
  | Act.connectNew _ q => passiveProg q
  | _ => true

/-- A handler body built only from snapshot-safe actions. -/
def snapSafeProg (p : List Act) : Bool := p.all snapSafeAct

/-- Every connection id ever handed out is below the fresh-id counter. -/
def IdBound (s : Sig) : Prop := ∀ c ∈ s.connections, c.id < s.nextConnId

instance (s : Sig) : Decidable (IdBound s) := by
  unfold IdBound
  infer_instance

/-- A destroyed signal: lifecycle flag down, listener registry and waiter set
empty. -/
def DestroyedInert (s : Sig) : Prop :=
  s.active = false ∧ registry s = [] ∧ s.waiters = []

/-- Modelled from the spec: the runtime values a caller may hand to the static
`Is` check — actual Signal instances, arbitrary tables carrying a class name
(possibly the shape-compatible string "ScriptSignal"), or other values. -/
inductive RtValue where
  | signal (s : Sig)
  | table (className : String)
  | other (n : Nat)

/-- Modelled from the spec: the static `Is` check — true iff the value is an
actual Signal instance (an identity/tag check, not a structural-shape
check). -/
def Is : RtValue → Bool
  | RtValue.signal _ => true
  | _ => false

/-! ## Basic lemmas about the state operations -/

lemma find?_id_map (g : Conn → Conn) (hg : ∀ c, (g c).id = c.id)
    (l : List Conn) (i : Nat) :
    (l.map g).find? (fun c => c.id == i) = (l.find? (fun c => c.id == i)).map g := by
  have hp : ((fun c => c.id == i) ∘ g) = (fun c : Conn => c.id == i) := by
    funext c
    simp [Function.comp, hg]
  rw [List.find?_map, hp]

lemma findConn_disconnectConn (s : Sig) (j i : Nat) :
    findConn (disconnectConn s j) i =
      (findConn s i).map
        (fun c => if c.id == j then { c with connected := false } else c) := by
  unfold findConn disconnectConn
  exact find?_id_map (fun c => if c.id == j then { c with connected := false } else c)
    (fun c => by by_cases h : (c.id == j) = true <;> simp [h]) s.connections i

lemma findConn_disconnectAllOp (s : Sig) (i : Nat) :
    findConn (disconnectAllOp s) i =
      (findConn s i).map (fun c => { c with connected := false }) := by
  unfold findConn disconnectAllOp
  exact find?_id_map (fun c => { c with connected := false }) (fun c => rfl)
    s.connections i

lemma findConn_id {s : Sig} {i : Nat} {c : Conn} (h : findConn s i = some c) :
    c.id = i := by
  have := List.find?_some h
  simpa using this

lemma findConn_mem {s : Sig} {i : Nat} {c : Conn} (h : findConn s i = some c) :
    c ∈ s.connections := List.mem_of_find?_eq_some h

lemma findConn_disconnectConn_ne {i j : Nat} (s : Sig) (h : i ≠ j) :
    findConn (disconnectConn s j) i = findConn s i := by
  rw [findConn_disconnectConn]
  cases hfc : findConn s i with
  | none => rfl
  | some c =>
      have hid : c.id = i := findConn_id hfc
      have hne : (c.id == j) = false := by simp [hid, h]
      simp [hne]
      exact fun hj => absurd (hid.symm.trans hj) h

lemma connConnected_disconnectConn_ne {i j : Nat} (s : Sig) (h : i ≠ j) :
    connConnected (disconnectConn s j) i = connConnected s i := by
  unfold connConnected
  rw [findConn_disconnectConn_ne s h]

lemma connConnected_disconnectAllOp (s : Sig) (i : Nat) :
    connConnected (disconnectAllOp s) i = false := by
  unfold connConnected
  rw [findConn_disconnectAllOp]
  cases findConn s i <;> simp

lemma find?_append_isSome {α} (q : α → Bool) {l1 : List α} (l2 : List α)
    (h : (l1.find? q).isSome) : (l1 ++ l2).find? q = l1.find? q := by
  induction l1 with
  | nil => simp at h
  | cons a t ih =>
      by_cases hq : q a = true
      · rw [List.cons_append, List.find?_cons_of_pos _ hq, List.find?_cons_of_pos _ hq]
      · rw [List.find?_cons_of_neg _ hq] at h
        rw [List.cons_append, List.find?_cons_of_neg _ hq, List.find?_cons_of_neg _ hq,
          ih h]

lemma findConn_connectOp {s : Sig} {i : Nat} (o : Bool) (p : List Act)
    (h : (findConn s i).isSome) :
    findConn (connectOp s o p).1 i = findConn s i := by
  unfold findConn connectOp at *
  exact find?_append_isSome _ _ h

lemma find?_append_of_none {α} (q : α → Bool) {l1 : List α} (l2 : List α)
    (h : l1.find? q = none) : (l1 ++ l2).find? q = l2.find? q := by
  induction l1 with
  | nil => simp
  | cons a t ih =>
      by_cases hq : q a = true
      · rw [List.find?_cons_of_pos _ hq] at h
        cases h
      · rw [List.find?_cons_of_neg _ hq] at h
        rw [List.cons_append, List.find?_cons_of_neg _ hq]
        exact ih h

lemma findConn_connectOp_new (s : Sig) (o : Bool) (p : List Act) (hB : IdBound s) :
    findConn (connectOp s o p).1 s.nextConnId =
      some ⟨s.nextConnId, o, s.active, p⟩ := by
  have hnone : s.connections.find? (fun c => c.id == s.nextConnId) = none := by
    rw [List.find?_eq_none]
    intro c hc
    have := hB c hc
    simp [Nat.ne_of_lt this]
  show List.find? (fun c => c.id == s.nextConnId)
      (s.connections ++ [⟨s.nextConnId, o, s.active, p⟩]) = _
  rw [find?_append_of_none _ _ hnone]
  simp [List.find?]

@[simp] lemma disconnectConn_waiters (s : Sig) (j : Nat) :
    (disconnectConn s j).waiters = s.waiters := rfl

@[simp] lemma disconnectConn_active (s : Sig) (j : Nat) :
    (disconnectConn s j).active = s.active := rfl

@[simp] lemma connectOp_waiters (s : Sig) (o : Bool) (p : List Act) :
    (connectOp s o p).1.waiters = s.waiters := rfl

@[simp] lemma connectOp_active (s : Sig) (o : Bool) (p : List Act) :
    (connectOp s o p).1.active = s.active := rfl

@[simp] lemma disconnectAllOp_waiters (s : Sig) :
    (disconnectAllOp s).waiters = s.waiters := rfl

@[simp] lemma disconnectAllOp_active (s : Sig) :
    (disconnectAllOp s).active = s.active := rfl

@[simp] lemma disconnectAllOp_nextConnId (s : Sig) :
    (disconnectAllOp s).nextConnId = s.nextConnId := rfl

lemma passiveAt_disconnectConn (s : Sig) (j i : Nat) :
    passiveAt (disconnectConn s j) i = passiveAt s i := by
  unfold passiveAt
  rw [findConn_disconnectConn]
  cases findConn s i with
  | none => rfl
  | some c => by_cases h : c.id = j <;> simp [h]

lemma hasThrowAt_disconnectConn (s : Sig) (j i : Nat) :
    hasThrowAt (disconnectConn s j) i = hasThrowAt s i := by
  unfold hasThrowAt
  rw [findConn_disconnectConn]
  cases findConn s i with
  | none => rfl
  | some c => by_cases h : c.id = j <;> simp [h]

lemma snapEvents_disconnectConn (s : Sig) (j : Nat) (args : List Val)
    (ids : List Nat) :
    snapEvents (disconnectConn s j) args ids = snapEvents s args ids := by
  induction ids with
  | nil => rfl
  | cons i t ih => simp [snapEvents, hasThrowAt_disconnectConn, ih]

/-! ## Passive dispatch: the closed form of a single Fire -/

lemma runActsWith_passive (f : FireFn) (s : Sig) (p : List Act)
    (hp : passiveProg p = true) :
    runActsWith f s p = (s, [], hasThrowProg p) := by
  induction p with
  | nil => simp [runActsWith, hasThrowProg]
  | cons a t ih =>
      rw [passiveProg, List.all_cons, Bool.and_eq_true] at hp
      cases a with
      | nop =>
          rw [runActsWith, ih hp.2]
          simp [hasThrowProg, List.any_cons, throwAct]
      | throwErr =>
          rw [runActsWith]
          simp [hasThrowProg, List.any_cons, throwAct]
      | disconnect cid => simp [passiveAct] at hp
      | connectNew o q => simp [passiveAct] at hp
      | fire vals => simp [passiveAct] at hp

lemma runSnapWith_passive (f : FireFn) (args : List Val) :
    ∀ (ids : List Nat) (s : Sig),
      (∀ i ∈ ids, passiveAt s i = true) →
      (∀ i ∈ ids, connConnected s i = true) →
      ids.Nodup →
      (runSnapWith f args s ids).2 = snapEvents s args ids ∧
      (runSnapWith f args s ids).1.waiters = s.waiters ∧
      (runSnapWith f args s ids).1.active = s.active := by
  intro ids
  induction ids with
  | nil => intro s _ _ _; simp [runSnapWith, snapEvents]
  | cons i t ih =>
      intro s hP hC hN
      have hCi : connConnected s i = true := hC i (List.mem_cons_self i t)
      unfold connConnected at hCi
      cases hfc : findConn s i with
      | none => rw [hfc] at hCi; cases hCi
      | some c =>
          rw [hfc] at hCi
          have hCc : c.connected = true := by simpa using hCi
          have hPi : passiveProg c.prog = true := by
            have := hP i (List.mem_cons_self i t)
            unfold passiveAt at this
            rw [hfc] at this
            exact this
          have hthrow : hasThrowAt s i = hasThrowProg c.prog := by
            unfold hasThrowAt
            rw [hfc]
          have hnotmem : i ∉ t := (List.nodup_cons.mp hN).1
          have hNt : t.Nodup := (List.nodup_cons.mp hN).2
          cases ho : c.once with
          | false =>
              have hrec := ih s (fun j hj => hP j (List.mem_cons_of_mem _ hj))
                (fun j hj => hC j (List.mem_cons_of_mem _ hj)) hNt
              rw [runSnapWith]
              simp only [hfc]
              simp [hCc, ho, runActsWith_passive f s c.prog hPi, snapEvents,
                hthrow, hrec.1, hrec.2.1, hrec.2.2]
          | true =>
              have hrec := ih (disconnectConn s i)
                (fun j hj => by
                  rw [passiveAt_disconnectConn]
                  exact hP j (List.mem_cons_of_mem _ hj))
                (fun j hj => by
                  rw [connConnected_disconnectConn_ne s
                    (fun h => hnotmem (by rw [h] at hj; exact hj))]
                  exact hC j (List.mem_cons_of_mem _ hj)) hNt
              rw [runSnapWith]
              simp only [hfc]
              simp [hCc, ho, runActsWith_passive f (disconnectConn s i) c.prog hPi,
                snapEvents, hthrow, hrec.1, hrec.2.1, hrec.2.2,
                snapEvents_disconnectConn]

lemma find?_of_mem_nodup {l : List Conn} (hN : (l.map Conn.id).Nodup)
    {c : Conn} (hc : c ∈ l) : l.find? (fun d => d.id == c.id) = some c := by
  induction l with
  | nil => cases hc
  | cons a t ih =>
      rw [List.map_cons] at hN
      have hN' := List.nodup_cons.mp hN
      rcases List.mem_cons.mp hc with rfl | hmem
      · exact List.find?_cons_of_pos _ (by simp)
      · have ha : ¬(a.id == c.id) = true := by
          simp only [beq_iff_eq]
          intro h
          exact hN'.1 (h ▸ List.mem_map_of_mem Conn.id hmem)
        have hfalse : (a.id == c.id) = false := by simpa using ha
        rw [List.find?_cons]
        rw [hfalse]
        exact ih hN'.2 hmem

lemma mem_registry {s : Sig} {c : Conn} (h : c ∈ registry s) :
    c ∈ s.connections ∧ c.connected = true :=
  ⟨List.mem_of_mem_filter h, by simpa using List.of_mem_filter h⟩

lemma registryIds_sound {s : Sig} (hN : (s.connections.map Conn.id).Nodup)
    {i : Nat} (hi : i ∈ registryIds s) :
    ∃ c, findConn s i = some c ∧ c.connected = true ∧ c ∈ s.connections := by
  obtain ⟨c, hc, rfl⟩ := List.mem_map.mp hi
  obtain ⟨hmem, hconn⟩ := mem_registry hc
  exact ⟨c, find?_of_mem_nodup hN hmem, hconn, hmem⟩

lemma registryIds_nodup {s : Sig} (hN : (s.connections.map Conn.id).Nodup) :
    (registryIds s).Nodup := by
  unfold registryIds registry
  exact hN.sublist ((List.filter_sublist s.connections).map Conn.id)

lemma runFire_passive (fuel : Nat) (s : Sig) (args : List Val)
    (hP : ∀ c ∈ s.connections, c.connected = true → passiveProg c.prog = true)
    (hN : (s.connections.map Conn.id).Nodup) :
    (runFire (fuel + 1) s args).2 =
        snapEvents s args (registryIds s) ++
          s.waiters.map (fun w => Event.resolve w args) ∧
    (runFire (fuel + 1) s args).1.waiters = [] ∧
    (runFire (fuel + 1) s args).1.active = s.active := by
  have h := runSnapWith_passive (runFire fuel) args (registryIds s) s
    (fun i hi => by
      obtain ⟨c, hfc, hconn, hmem⟩ := registryIds_sound hN hi
      unfold passiveAt
      rw [hfc]
      exact hP c hmem hconn)
    (fun i hi => by
      obtain ⟨c, hfc, hconn, _⟩ := registryIds_sound hN hi
      unfold connConnected
      rw [hfc]
      exact hconn)
    (registryIds_nodup hN)
  rw [runFire]
  exact ⟨by rw [h.1, h.2.1], rfl, h.2.2⟩

/-! ## Extracting invocation and resolution events from a Fire log -/

lemma invokeEvents_append (a b : List Event) :
    invokeEvents (a ++ b) = invokeEvents a ++ invokeEvents b :=
  List.filter_append _ _

lemma resolveEvents_append (a b : List Event) :
    resolveEvents (a ++ b) = resolveEvents a ++ resolveEvents b :=
  List.filter_append _ _

lemma invokeEvents_snapEvents (s : Sig) (args : List Val) (ids : List Nat) :
    invokeEvents (snapEvents s args ids) =
      ids.map (fun i => Event.invoke i args) := by
  induction ids with
  | nil => rfl
  | cons i t ih =>
      rw [snapEvents]
      unfold invokeEvents at *
      rw [List.filter_cons, List.filter_append]
      cases hasThrowAt s i <;> simp [isInvoke, ih]

lemma invokeEvents_resolves (l : List Nat) (args : List Val) :
    invokeEvents (l.map fun w => Event.resolve w args) = [] := by
  induction l with
  | nil => rfl
  | cons w t ih => simp [invokeEvents, isInvoke, ih]

lemma resolveEvents_snapEvents (s : Sig) (args : List Val) (ids : List Nat) :
    resolveEvents (snapEvents s args ids) = [] := by
  induction ids with
  | nil => rfl
  | cons i t ih =>
      rw [snapEvents]
      unfold resolveEvents at *
      rw [List.filter_cons, List.filter_append]
      cases hasThrowAt s i <;> simp [isResolve, ih]

lemma resolveEvents_resolves (l : List Nat) (args : List Val) :
    resolveEvents (l.map fun w => Event.resolve w args) =
      l.map fun w => Event.resolve w args := by
  induction l with
  | nil => rfl
  | cons w t ih => simp [resolveEvents, isResolve] at ih ⊢

lemma handlerError_mem_snapEvents (s : Sig) (args : List Val) :
    ∀ {ids : List Nat} {i : Nat}, i ∈ ids → hasThrowAt s i = true →
      Event.handlerError i ∈ snapEvents s args ids := by
  intro ids
  induction ids with
  | nil => intro i h _; cases h
  | cons j t ih =>
      intro i hmem hthrow
      rw [snapEvents]
      rcases List.mem_cons.mp hmem with rfl | hmem'
      · rw [hthrow]
        exact List.mem_cons_of_mem _ (List.mem_append_left _ (List.mem_singleton.mpr rfl))
      · exact List.mem_cons_of_mem _ (List.mem_append_right _ (ih hmem' hthrow))

lemma not_resolve_mem_snapEvents (s : Sig) (args : List Val) {w : Nat}
    {a : List Val} : ∀ {ids : List Nat},
    Event.resolve w a ∉ snapEvents s args ids := by
  intro ids
  induction ids with
  | nil => simp [snapEvents]
  | cons j t ih =>
      rw [snapEvents]
      intro hmem
      rcases List.mem_cons.mp hmem with h | h
      · cases h
      · rcases List.mem_append.mp h with h' | h'
        · cases hasThrowAt s j <;> simp at h'
        · exact ih h'

/-! ## C1 — Fire invokes every still-connected handler exactly once, in
registration order, with the fired arguments -/

/-- C1: for a signal state with distinct connection ids whose connected
handlers do not themselves mutate the signal (the setting of "a sequence of
Connect calls on an active Signal followed by one Fire"), the invocation
events of the Fire are exactly the still-connected connection ids at Fire
time, in registration order, each invoked with the fired arguments; the id
list has no duplicates, so each such handler is invoked exactly once. -/
theorem fire_invokes_connected_in_order (fuel : Nat) (s : Sig) (args : List Val)
    (hP : ∀ c ∈ s.connections, c.connected = true → passiveProg c.prog = true)
    (hN : (s.connections.map Conn.id).Nodup) :
    invokeEvents (runFire (fuel + 1) s args).2 =
      (registryIds s).map (fun i => Event.invoke i args) ∧
    (registryIds s).Nodup := by
  have h := runFire_passive fuel s args hP hN
  refine ⟨?_, registryIds_nodup hN⟩
  rw [h.1, invokeEvents_append, invokeEvents_snapEvents, invokeEvents_resolves,
    List.append_nil]

/-- Witness for C1: three handlers connected in order 0,1,2, handler 1 then
disconnected; firing `"go"` invokes exactly handlers 0 and 2, in order, with
`"go"`. -/
theorem fire_invokes_connected_in_order_witness :
    invokeEvents (runFire 1 (⟨[⟨0, false, true, []⟩, ⟨1, false, false, []⟩,
        ⟨2, false, true, []⟩], [], true, 3, 0⟩ : Sig) [Val.str "go"]).2 =
      [Event.invoke 0 [Val.str "go"], Event.invoke 2 [Val.str "go"]] := by
  have h := fire_invokes_connected_in_order 0
    (⟨[⟨0, false, true, []⟩, ⟨1, false, false, []⟩, ⟨2, false, true, []⟩],
      [], true, 3, 0⟩ : Sig) [Val.str "go"] (by decide) (by decide)
  exact h.1.trans (by decide)

/-! ## C9 — a handler error is isolated to that listener -/

/-- C9: during Fire, an error raised by one listener's handler is isolated to
that listener: every snapshotted, still-connected handler is still invoked
(the invocation list is the full registry, in order), each erroring handler's
error is reported to the host error sink as a `handlerError` event, and the
Fire still runs to completion, resolving the pending waiters (no error
propagates to the Fire caller). -/
theorem fire_handler_fault_isolated (fuel : Nat) (s : Sig) (args : List Val)
    (hP : ∀ c ∈ s.connections, c.connected = true → passiveProg c.prog = true)
    (hN : (s.connections.map Conn.id).Nodup) :
    invokeEvents (runFire (fuel + 1) s args).2 =
      (registryIds s).map (fun i => Event.invoke i args) ∧
    (∀ i ∈ registryIds s, hasThrowAt s i = true →
      Event.handlerError i ∈ (runFire (fuel + 1) s args).2) ∧
    (∀ w ∈ s.waiters, Event.resolve w args ∈ (runFire (fuel + 1) s args).2) := by
  have h := runFire_passive fuel s args hP hN
  refine ⟨?_, ?_, ?_⟩
  · rw [h.1, invokeEvents_append, invokeEvents_snapEvents, invokeEvents_resolves,
      List.append_nil]
  · intro i hi hthrow
    rw [h.1]
    exact List.mem_append_left _ (handlerError_mem_snapEvents s args hi hthrow)
  · intro w hw
    rw [h.1]
    exact List.mem_append_right _
      (List.mem_map_of_mem (fun w => Event.resolve w args) hw)

/-- Witness for C9: handler 0 raises an error, handler 1 does not, a waiter is
pending; both handlers are invoked in order, the error of handler 0 is
reported, and the waiter is still resolved. -/
theorem fire_handler_fault_isolated_witness :
    invokeEvents (runFire 1 (⟨[⟨0, false, true, [Act.throwErr]⟩,
        ⟨1, false, true, []⟩], [0], true, 2, 1⟩ : Sig) [Val.num 0]).2 =
      [Event.invoke 0 [Val.num 0], Event.invoke 1 [Val.num 0]] ∧
    Event.handlerError 0 ∈ (runFire 1 (⟨[⟨0, false, true, [Act.throwErr]⟩,
        ⟨1, false, true, []⟩], [0], true, 2, 1⟩ : Sig) [Val.num 0]).2 ∧
    Event.resolve 0 [Val.num 0] ∈ (runFire 1 (⟨[⟨0, false, true, [Act.throwErr]⟩,
        ⟨1, false, true, []⟩], [0], true, 2, 1⟩ : Sig) [Val.num 0]).2 := by
  have h := fire_handler_fault_isolated 0
    (⟨[⟨0, false, true, [Act.throwErr]⟩, ⟨1, false, true, []⟩], [0], true, 2, 1⟩ : Sig)
    [Val.num 0] (by decide) (by decide)
  exact ⟨h.1.trans (by decide),
    h.2.1 0 (by decide) (by decide),
    h.2.2 0 (by decide)⟩

/-! ## C3 — Wait/Fire concordance -/

/-- C3: a Fire resolves exactly the waiters pending at its start, each with
exactly the fired argument tuple (so every Wait issued before the Fire
resolves with that Fire's arguments, and concurrent waiters all receive the
identical tuple); afterwards the waiter set is empty, and no waiter id that
was not pending before the Fire is resolved by it (a Wait made after a
completed Fire only observes a later Fire). -/
theorem wait_fire_concordance (fuel : Nat) (s : Sig) (args : List Val)
    (hP : ∀ c ∈ s.connections, c.connected = true → passiveProg c.prog = true)
    (hN : (s.connections.map Conn.id).Nodup) :
    resolveEvents (runFire (fuel + 1) s args).2 =
      s.waiters.map (fun w => Event.resolve w args) ∧
    (∀ w ∈ s.waiters, Event.resolve w args ∈ (runFire (fuel + 1) s args).2) ∧
    (runFire (fuel + 1) s args).1.waiters = [] ∧
    (∀ w, w ∉ s.waiters → ∀ a, Event.resolve w a ∉ (runFire (fuel + 1) s args).2) := by
  have h := runFire_passive fuel s args hP hN
  refine ⟨?_, ?_, h.2.1, ?_⟩
  · rw [h.1, resolveEvents_append, resolveEvents_snapEvents,
      resolveEvents_resolves, List.nil_append]
  · intro w hw
    rw [h.1]
    exact List.mem_append_right _
      (List.mem_map_of_mem (fun w => Event.resolve w args) hw)
  · intro w hw a hmem
    rw [h.1] at hmem
    rcases List.mem_append.mp hmem with h' | h'
    · exact not_resolve_mem_snapEvents s args h'
    · obtain ⟨w', hw', heq⟩ := List.mem_map.mp h'
      cases heq
      exact hw hw'

/-- Witness for C3: two waiters pending before `Fire(42, "x")` both resolve
with exactly `(42, "x")`, the waiter set is empty afterwards, and a waiter id
not pending before the Fire (id 2) is not resolved by it. -/
theorem wait_fire_concordance_witness :
    resolveEvents (runFire 1 (⟨[], [0, 1], true, 0, 2⟩ : Sig)
        [Val.num 42, Val.str "x"]).2 =
      [Event.resolve 0 [Val.num 42, Val.str "x"],
       Event.resolve 1 [Val.num 42, Val.str "x"]] ∧
    (runFire 1 (⟨[], [0, 1], true, 0, 2⟩ : Sig) [Val.num 42, Val.str "x"]).1.waiters
      = [] ∧
    Event.resolve 2 [Val.nil] ∉
      (runFire 1 (⟨[], [0, 1], true, 0, 2⟩ : Sig) [Val.num 42, Val.str "x"]).2 := by
  have h := wait_fire_concordance 0 (⟨[], [0, 1], true, 0, 2⟩ : Sig)
    [Val.num 42, Val.str "x"] (by decide) (by decide)
  exact ⟨h.1.trans (by decide), h.2.2.1,
    h.2.2.2 2 (by decide) [Val.nil]⟩

/-! ## C8 — DisconnectAll disconnects everything but leaves the Signal usable -/

lemma filter_connected_setFalse (l : List Conn) :
    (l.map (fun c => { c with connected := false })).filter
      (fun c => c.connected) = [] := by
  induction l with
  | nil => rfl
  | cons a t ih => simpa using ih

lemma registry_disconnectAllOp (s : Sig) : registry (disconnectAllOp s) = [] := by
  unfold registry disconnectAllOp
  exact filter_connected_setFalse s.connections

lemma IdBound_disconnectAllOp {s : Sig} (hB : IdBound s) :
    IdBound (disconnectAllOp s) := by
  intro c hc
  obtain ⟨d, hd, rfl⟩ := List.mem_map.mp hc
  exact hB d hd

/-- C8: after `DisconnectAll`, every previously-returned connection reports
`Connected = false`, while the signal itself stays Active; a subsequent
`Connect` (or `Once`) succeeds normally — its handler is the sole registry
entry — and on the next Fire that handler is invoked with the fired
arguments. -/
theorem disconnectAll_frame (fuel : Nat) (s : Sig) (o : Bool) (p : List Act)
    (args : List Val) (hA : s.active = true) (hB : IdBound s)
    (hp : passiveProg p = true) :
    (∀ cid, connConnected (disconnectAllOp s) cid = false) ∧
    (disconnectAllOp s).active = true ∧
    registryIds (connectOp (disconnectAllOp s) o p).1 = [s.nextConnId] ∧
    invokeEvents
        (runFire (fuel + 1) (connectOp (disconnectAllOp s) o p).1 args).2 =
      [Event.invoke s.nextConnId args] := by
  have hreg : registry (connectOp (disconnectAllOp s) o p).1 =
      [⟨s.nextConnId, o, true, p⟩] := by
    have h1 : (disconnectAllOp s).connections.filter (fun c => c.connected) = [] :=
      registry_disconnectAllOp s
    show ((disconnectAllOp s).connections ++
        [(⟨(disconnectAllOp s).nextConnId, o, (disconnectAllOp s).active, p⟩ : Conn)]).filter
        (fun c => c.connected) = [(⟨s.nextConnId, o, true, p⟩ : Conn)]
    rw [List.filter_append, h1, List.nil_append]
    simp [disconnectAllOp_active, disconnectAllOp_nextConnId, hA]
  have hregIds : registryIds (connectOp (disconnectAllOp s) o p).1 =
      [s.nextConnId] := by
    unfold registryIds
    rw [hreg]
    rfl
  have hfc : findConn (connectOp (disconnectAllOp s) o p).1 s.nextConnId =
      some ⟨s.nextConnId, o, true, p⟩ := by
    have := findConn_connectOp_new (disconnectAllOp s) o p
      (IdBound_disconnectAllOp hB)
    rw [disconnectAllOp_active, hA] at this
    exact this
  refine ⟨connConnected_disconnectAllOp s, by rw [disconnectAllOp_active, hA],
    hregIds, ?_⟩
  have h := runSnapWith_passive (runFire fuel) args [s.nextConnId]
    (connectOp (disconnectAllOp s) o p).1
    (fun i hi => by
      rw [List.mem_singleton.mp hi]
      unfold passiveAt
      rw [hfc]
      exact hp)
    (fun i hi => by
      rw [List.mem_singleton.mp hi]
      unfold connConnected
      rw [hfc])
    (List.nodup_singleton _)
  rw [runFire]
  simp only [hregIds]
  rw [invokeEvents_append, h.1, invokeEvents_snapEvents, invokeEvents_resolves,
    List.append_nil]
  rfl

/-- Witness for C8: a signal with one connected handler (id 0); after
`DisconnectAll` its connection reads disconnected, the signal stays active,
and a fresh `Connect` (id 1) is delivered alone on the next Fire. -/
theorem disconnectAll_frame_witness :
    connConnected (disconnectAllOp
        (⟨[⟨0, false, true, []⟩], [], true, 1, 0⟩ : Sig)) 0 = false ∧
    (disconnectAllOp (⟨[⟨0, false, true, []⟩], [], true, 1, 0⟩ : Sig)).active
      = true ∧
    invokeEvents (runFire 1 (connectOp (disconnectAllOp
        (⟨[⟨0, false, true, []⟩], [], true, 1, 0⟩ : Sig)) false []).1
        [Val.num 5]).2 = [Event.invoke 1 [Val.num 5]] := by
  have h := disconnectAll_frame 0 (⟨[⟨0, false, true, []⟩], [], true, 1, 0⟩ : Sig)
    false [] [Val.num 5] (by decide) (by decide) (by decide)
  exact ⟨h.1 0, h.2.1, h.2.2.2⟩

/-! ## C5 — Destroy is an idempotent terminal transition -/

lemma map_setFalse_of_all_false (l : List Conn)
    (h : ∀ c ∈ l, c.connected = false) :
    l.map (fun c => { c with connected := false }) = l := by
  induction l with
  | nil => rfl
  | cons a t ih =>
      rw [List.map_cons, ih (fun c hc => h c (List.mem_cons_of_mem _ hc))]
      have ha := h a (List.mem_cons_self a t)
      cases a
      simp only at ha
      simp [ha]

lemma destroyOp_connections_false (s : Sig) :
    ∀ c ∈ (destroyOp s).1.connections, c.connected = false := by
  intro c hc
  unfold destroyOp disconnectAllOp at hc
  simp only at hc
  obtain ⟨d, _, rfl⟩ := List.mem_map.mp hc
  rfl

lemma destroyOp_inert (t : Sig) (hc : ∀ c ∈ t.connections, c.connected = false)
    (hw : t.waiters = []) (ha : t.active = false) :
    destroyOp t = (t, []) := by
  cases t with
  | mk conns ws act nc nw =>
      simp only at hc hw ha
      unfold destroyOp disconnectAllOp
      simp only [hw, ha, List.map_nil]
      rw [map_setFalse_of_all_false conns hc]

/-- C5: `Destroy` is an idempotent terminal transition: afterwards `IsActive`
is false, every connection existing at Destroy time reports
`Connected = false`, every pending Wait fails with the "signal destroyed"
outcome, a Wait issued after Destroy fails immediately (no registration, so
it can never hang), and a second Destroy leaves the state unchanged and
produces no events. -/
theorem destroy_terminal (fuel : Nat) (s : Sig) :
    (runOp fuel s Op.destroy).1.active = false ∧
    (∀ cid, connConnected (runOp fuel s Op.destroy).1 cid = false) ∧
    (runOp fuel s Op.destroy).2 = s.waiters.map (fun w => Event.waitFailed w) ∧
    (runOp fuel (runOp fuel s Op.destroy).1 Op.wait).2 =
      [Event.waitFailed (runOp fuel s Op.destroy).1.nextWaiterId] ∧
    (runOp fuel (runOp fuel s Op.destroy).1 Op.wait).1.waiters = [] ∧
    runOp fuel (runOp fuel s Op.destroy).1 Op.destroy =
      ((runOp fuel s Op.destroy).1, []) := by
  refine ⟨rfl, ?_, rfl, rfl, rfl, ?_⟩
  · intro cid
    exact connConnected_disconnectAllOp s cid
  · exact destroyOp_inert (destroyOp s).1 (destroyOp_connections_false s) rfl rfl

/-! ## C6 — a destroyed Signal's registries are empty and stay empty -/

lemma registry_eq_nil_iff (s : Sig) :
    registry s = [] ↔ ∀ c ∈ s.connections, c.connected = false := by
  unfold registry
  rw [List.filter_eq_nil_iff]
  simp

lemma destroyedInert_runOp (fuel : Nat) (s : Sig) (op : Op)
    (h : DestroyedInert s) : DestroyedInert (runOp fuel s op).1 := by
  obtain ⟨ha, hr, hw⟩ := h
  have hcf : ∀ c ∈ s.connections, c.connected = false :=
    (registry_eq_nil_iff s).mp hr
  cases op with
  | connect o p =>
      refine ⟨by simpa using ha, ?_, by simpa using hw⟩
      rw [registry_eq_nil_iff]
      intro c hc
      rcases (by simpa [runOp, connectOp] using hc :
          c ∈ s.connections ∨ c = ⟨s.nextConnId, o, s.active, p⟩) with h' | h'
      · exact hcf c h'
      · rw [h']
        exact ha
  | disconnect cid =>
      refine ⟨by simpa using ha, ?_, by simpa using hw⟩
      rw [registry_eq_nil_iff]
      intro c hc
      have hc' : c ∈ s.connections.map
          (fun d => if d.id == cid then { d with connected := false } else d) := hc
      obtain ⟨d, hd, rfl⟩ := List.mem_map.mp hc'
      by_cases hid : (d.id == cid) = true
      · rw [if_pos hid]
      · rw [if_neg hid]
        exact hcf d hd
  | wait =>
      simp only [runOp, ha, Bool.false_eq_true, if_false]
      exact ⟨rfl, hr, hw⟩
  | fire args =>
      simp only [runOp, ha, Bool.false_eq_true, if_false]
      exact ⟨ha, hr, hw⟩
  | disconnectAll =>
      exact ⟨by simpa using ha, registry_disconnectAllOp s, by simpa using hw⟩
  | destroy =>
      refine ⟨rfl, ?_, rfl⟩
      rw [registry_eq_nil_iff]
      exact destroyOp_connections_false s

/-- C6: once a Signal is destroyed (state flag down, listener registry and
waiter set empty), running any sequence of further operations — Connect,
Once, Disconnect, Wait, Fire, DisconnectAll, Destroy — leaves it destroyed
with both registries still empty: no new entry is admitted and the state
never returns to Active. -/
theorem destroyed_registries_stay_empty (fuel : Nat) (s : Sig) (ops : List Op)
    (h : DestroyedInert s) : DestroyedInert (runOps fuel s ops).1 := by
  induction ops generalizing s with
  | nil => exact h
  | cons op rest ih =>
      rw [runOps]
      exact ih (runOp fuel s op).1 (destroyedInert_runOp fuel s op h)

/-- Witness for C6: a destroyed signal stays inert across a connect, a once
registration, a wait, a fire, a disconnect-all and a second destroy. -/
theorem destroyed_registries_stay_empty_witness :
    DestroyedInert (runOps 2 (⟨[⟨0, false, false, []⟩], [], false, 1, 3⟩ : Sig)
      [Op.connect false [], Op.connect true [], Op.wait, Op.fire [Val.num 1],
       Op.disconnectAll, Op.destroy]).1 :=
  destroyed_registries_stay_empty 2
    (⟨[⟨0, false, false, []⟩], [], false, 1, 3⟩ : Sig)
    [Op.connect false [], Op.connect true [], Op.wait, Op.fire [Val.num 1],
     Op.disconnectAll, Op.destroy] ⟨rfl, rfl, rfl⟩

/-! ## C7 — Connect/Once on a destroyed Signal is inert, not an error -/

lemma inactive_runOp (fuel : Nat) (s : Sig) (op : Op) (h : s.active = false) :
    (runOp fuel s op).1.active = false ∧
    ∀ e ∈ (runOp fuel s op).2, isInvoke e = false := by
  cases op with
  | connect o p => exact ⟨by simpa using h, by simp [runOp]⟩
  | disconnect cid => exact ⟨by simpa using h, by simp [runOp]⟩
  | wait =>
      constructor
      · simp [runOp, h]
      · intro e he
        simp only [runOp, h, Bool.false_eq_true, if_false] at he
        rw [List.mem_singleton.mp he]
        rfl
  | fire args =>
      constructor
      · simp [runOp, h]
      · intro e he
        simp only [runOp, h, Bool.false_eq_true, if_false] at he
        simp at he
  | disconnectAll => exact ⟨by simpa using h, by simp [runOp]⟩
  | destroy =>
      refine ⟨rfl, ?_⟩
      intro e he
      obtain ⟨w, _, rfl⟩ := List.mem_map.mp he
      rfl

lemma inactive_no_invoke (fuel : Nat) (s : Sig) (ops : List Op)
    (h : s.active = false) :
    ∀ e ∈ (runOps fuel s ops).2, isInvoke e = false := by
  induction ops generalizing s with
  | nil => simp [runOps]
  | cons op rest ih =>
      intro e he
      rw [runOps] at he
      rcases List.mem_append.mp he with h' | h'
      · exact (inactive_runOp fuel s op h).2 e h'
      · exact ih (runOp fuel s op).1 (inactive_runOp fuel s op h).1 e h'

/-- C7: `Connect` (or `Once`, via the once flag) on a destroyed Signal does
not fail: the returned connection already reports `Connected = false`, the
listener registry is unchanged (no registration), and no later operation
sequence ever produces an invocation of that handler (a destroyed Signal
never invokes anything, since Fire stays a no-op forever). -/
theorem connect_on_destroyed_inert (fuel : Nat) (s : Sig) (o : Bool)
    (p : List Act) (hA : s.active = false) (hB : IdBound s) :
    connConnected (connectOp s o p).1 s.nextConnId = false ∧
    registry (connectOp s o p).1 = registry s ∧
    (∀ ops, ∀ e ∈ (runOps fuel (connectOp s o p).1 ops).2,
      ∀ a, e ≠ Event.invoke s.nextConnId a) := by
  refine ⟨?_, ?_, ?_⟩
  · unfold connConnected
    rw [findConn_connectOp_new s o p hB]
    exact hA
  · show (s.connections ++ [(⟨s.nextConnId, o, s.active, p⟩ : Conn)]).filter
        (fun c => c.connected) = registry s
    rw [List.filter_append]
    simp [hA, registry]
  · intro ops e he a heq
    have := inactive_no_invoke fuel (connectOp s o p).1 ops (by simpa using hA) e he
    rw [heq] at this
    cases this

/-- Witness for C7: connecting handler id 1 on a destroyed signal yields a
disconnected connection, changes no registry, and a later Fire produces no
invocation of it. -/
theorem connect_on_destroyed_inert_witness :
    connConnected (connectOp (⟨[⟨0, false, false, []⟩], [], false, 1, 0⟩ : Sig)
      false []).1 1 = false ∧
    (∀ e ∈ (runOps 1 (connectOp (⟨[⟨0, false, false, []⟩], [], false, 1, 0⟩ : Sig)
        false []).1 [Op.fire [Val.num 3]]).2, ∀ a, e ≠ Event.invoke 1 a) := by
  have h := connect_on_destroyed_inert 1
    (⟨[⟨0, false, false, []⟩], [], false, 1, 0⟩ : Sig) false []
    (by decide) (by decide)
  exact ⟨h.1, h.2.2 [Op.fire [Val.num 3]]⟩

/-! ## Unfolding lemmas for dispatch over one snapshot entry -/

lemma runSnapWith_cons_none (f : FireFn) (args : List Val) (s : Sig) (i : Nat)
    (t : List Nat) (hfc : findConn s i = none) :
    runSnapWith f args s (i :: t) = runSnapWith f args s t := by
  rw [runSnapWith]
  simp only [hfc]

lemma runSnapWith_cons_dead (f : FireFn) (args : List Val) (s : Sig) (i : Nat)
    (t : List Nat) {c : Conn} (hfc : findConn s i = some c)
    (hcc : c.connected = false) :
    runSnapWith f args s (i :: t) = runSnapWith f args s t := by
  rw [runSnapWith]
  simp only [hfc, hcc, Bool.false_eq_true, if_false]

lemma runSnapWith_cons_plain (f : FireFn) (args : List Val) (s : Sig) (i : Nat)
    (t : List Nat) {c : Conn} (hfc : findConn s i = some c)
    (hcc : c.connected = true) (ho : c.once = false) :
    runSnapWith f args s (i :: t) =
      ((runSnapWith f args (runActsWith f s c.prog).1 t).1,
        (Event.invoke i args ::
          ((runActsWith f s c.prog).2.1 ++
            (if (runActsWith f s c.prog).2.2 then [Event.handlerError i]
              else []))) ++
          (runSnapWith f args (runActsWith f s c.prog).1 t).2) := by
  rw [runSnapWith]
  simp only [hfc, hcc, ho, Bool.false_eq_true, if_false, if_true]

lemma runSnapWith_cons_once (f : FireFn) (args : List Val) (s : Sig) (i : Nat)
    (t : List Nat) {c : Conn} (hfc : findConn s i = some c)
    (hcc : c.connected = true) (ho : c.once = true) :
    runSnapWith f args s (i :: t) =
      ((runSnapWith f args
          (runActsWith f (disconnectConn s i) c.prog).1 t).1,
        (Event.invoke i args ::
          ((runActsWith f (disconnectConn s i) c.prog).2.1 ++
            (if (runActsWith f (disconnectConn s i) c.prog).2.2
              then [Event.handlerError i] else []))) ++
          (runSnapWith f args
            (runActsWith f (disconnectConn s i) c.prog).1 t).2) := by
  rw [runSnapWith]
  simp only [hfc, hcc, ho, if_true]

/-! ## C2 — a Once handler is invoked at most once, ever -/

/-- The tracked status of a `once` connection: `some b` when connection `cid`
exists, has the once flag, and its `connected` flag is `b`; `none`
otherwise. -/
def onceState (s : Sig) (cid : Nat) : Option Bool :=
  match findConn s cid with
  | some c => if c.once then some c.connected else none
  | none => none

/-- A fire oracle under which a once connection can only lose its remaining
invocation budget: if its connected flag is `b` before the call, the number
of its invocations during the call plus its remaining budget afterwards is at
most `b`. -/
def OncePres (cid : Nat) (f : FireFn) : Prop :=
  ∀ s vals b, onceState s cid = some b →
    ∃ b', onceState (f s vals).1 cid = some b' ∧
      countInvoke cid (f s vals).2 + b'.toNat ≤ b.toNat

lemma onceState_some_once {s : Sig} {cid : Nat} {b : Bool} {c : Conn}
    (hfc : findConn s cid = some c) (h : onceState s cid = some b) :
    c.once = true ∧ c.connected = b := by
  unfold onceState at h
  simp only [hfc] at h
  by_cases ho : c.once = true
  · rw [if_pos ho] at h
    exact ⟨ho, Option.some.inj h⟩
  · rw [if_neg ho] at h
    cases h

lemma onceState_disconnectConn_self {s : Sig} {cid : Nat} {b : Bool}
    (h : onceState s cid = some b) :
    onceState (disconnectConn s cid) cid = some false := by
  cases hfc : findConn s cid with
  | none => unfold onceState at h; simp only [hfc] at h; cases h
  | some c =>
      obtain ⟨ho, _⟩ := onceState_some_once hfc h
      have hid : c.id = cid := findConn_id hfc
      unfold onceState
      rw [findConn_disconnectConn, hfc, Option.map_some']
      rw [if_pos (by simp [hid])]
      simp [ho]

lemma onceState_disconnectConn_ne {s : Sig} {cid : Nat} (j : Nat)
    (hne : cid ≠ j) :
    onceState (disconnectConn s j) cid = onceState s cid := by
  unfold onceState
  rw [findConn_disconnectConn_ne s hne]

lemma onceState_connectOp {s : Sig} {cid : Nat} {b : Bool} (o : Bool)
    (p : List Act) (h : onceState s cid = some b) :
    onceState (connectOp s o p).1 cid = some b := by
  cases hfc : findConn s cid with
  | none => unfold onceState at h; simp only [hfc] at h; cases h
  | some c =>
      unfold onceState at h ⊢
      rw [findConn_connectOp o p (by rw [hfc]; rfl), hfc]
      simp only [hfc] at h
      exact h

lemma onceState_disconnectAllOp {s : Sig} {cid : Nat} {b : Bool}
    (h : onceState s cid = some b) :
    onceState (disconnectAllOp s) cid = some false := by
  cases hfc : findConn s cid with
  | none => unfold onceState at h; simp only [hfc] at h; cases h
  | some c =>
      obtain ⟨ho, _⟩ := onceState_some_once hfc h
      unfold onceState
      rw [findConn_disconnectAllOp, hfc, Option.map_some']
      simp [ho]

lemma onceState_congr_connections {s t : Sig} (cid : Nat)
    (h : t.connections = s.connections) : onceState t cid = onceState s cid := by
  unfold onceState findConn
  rw [h]

lemma countInvoke_nil (cid : Nat) : countInvoke cid [] = 0 := rfl

lemma countInvoke_append (cid : Nat) (a b : List Event) :
    countInvoke cid (a ++ b) = countInvoke cid a + countInvoke cid b :=
  List.countP_append _ _ _

lemma countInvoke_cons_invoke_self (cid : Nat) (args : List Val)
    (l : List Event) :
    countInvoke cid (Event.invoke cid args :: l) = countInvoke cid l + 1 := by
  simp [countInvoke, List.countP_cons, isInvokeOf]

lemma countInvoke_cons_invoke_ne {i cid : Nat} (h : i ≠ cid) (args : List Val)
    (l : List Event) :
    countInvoke cid (Event.invoke i args :: l) = countInvoke cid l := by
  simp [countInvoke, List.countP_cons, isInvokeOf, h]

lemma countInvoke_ite_err (cid i : Nat) (bb : Bool) :
    countInvoke cid (if bb then [Event.handlerError i] else []) = 0 := by
  cases bb <;> simp [countInvoke, List.countP_cons, isInvokeOf]

lemma countInvoke_resolves (cid : Nat) (l : List Nat) (args : List Val) :
    countInvoke cid (l.map fun w => Event.resolve w args) = 0 := by
  induction l with
  | nil => rfl
  | cons w t ih => simpa [countInvoke, List.countP_cons, isInvokeOf] using ih

lemma countInvoke_waitFaileds (cid : Nat) (l : List Nat) :
    countInvoke cid (l.map fun w => Event.waitFailed w) = 0 := by
  induction l with
  | nil => rfl
  | cons w t ih => simpa [countInvoke, List.countP_cons, isInvokeOf] using ih

lemma runActsWith_oncePres (cid : Nat) (f : FireFn) (hf : OncePres cid f) :
    ∀ (p : List Act) (s : Sig) (b : Bool), onceState s cid = some b →
      ∃ b', onceState (runActsWith f s p).1 cid = some b' ∧
        countInvoke cid (runActsWith f s p).2.1 + b'.toNat ≤ b.toNat := by
  intro p
  induction p with
  | nil => intro s b h; exact ⟨b, h, by simp [runActsWith, countInvoke_nil]⟩
  | cons a t ih =>
      intro s b h
      cases a with
      | nop => rw [runActsWith]; exact ih s b h
      | throwErr =>
          rw [runActsWith]
          exact ⟨b, h, by simp [countInvoke_nil]⟩
      | disconnect j =>
          rw [runActsWith]
          by_cases hj : cid = j
          · subst hj
            obtain ⟨b', hb', hle⟩ := ih _ false (onceState_disconnectConn_self h)
            exact ⟨b', hb', le_trans hle (by simp)⟩
          · exact ih _ b (by rw [onceState_disconnectConn_ne j hj]; exact h)
      | connectNew o q =>
          rw [runActsWith]
          exact ih _ b (onceState_connectOp o q h)
      | fire v =>
          rw [runActsWith]
          by_cases ha : s.active = true
          · rw [if_pos ha]
            obtain ⟨b1, hb1, hle1⟩ := hf s v b h
            obtain ⟨b', hb', hle2⟩ := ih _ b1 hb1
            refine ⟨b', hb', ?_⟩
            rw [countInvoke_append]
            omega
          · rw [if_neg ha]
            exact ih s b h

lemma runSnapWith_oncePres (cid : Nat) (f : FireFn) (hf : OncePres cid f)
    (args : List Val) :
    ∀ (ids : List Nat) (s : Sig) (b : Bool), onceState s cid = some b →
      ∃ b', onceState (runSnapWith f args s ids).1 cid = some b' ∧
        countInvoke cid (runSnapWith f args s ids).2 + b'.toNat ≤ b.toNat := by
  intro ids
  induction ids with
  | nil => intro s b h; exact ⟨b, h, by simp [runSnapWith, countInvoke_nil]⟩
  | cons i t ih =>
      intro s b h
      cases hfc : findConn s i with
      | none =>
          rw [runSnapWith_cons_none f args s i t hfc]
          exact ih s b h
      | some c =>
          cases hcc : c.connected with
          | false =>
              rw [runSnapWith_cons_dead f args s i t hfc hcc]
              exact ih s b h
          | true =>
              by_cases hi : i = cid
              · subst hi
                obtain ⟨ho, hcb⟩ := onceState_some_once hfc h
                have hb : b = true := by rw [← hcb, hcc]
                subst hb
                rw [runSnapWith_cons_once f args s i t hfc hcc ho]
                obtain ⟨b2, hb2, hle2⟩ := runActsWith_oncePres i f hf c.prog
                  (disconnectConn s i) false (onceState_disconnectConn_self h)
                have hb2f : b2 = false := by
                  cases b2
                  · rfl
                  · simp [Bool.toNat] at hle2
                have hcnt2 : countInvoke i
                    (runActsWith f (disconnectConn s i) c.prog).2.1 = 0 := by
                  rw [hb2f] at hle2
                  simpa using hle2
                subst hb2f
                obtain ⟨b', hb', hle3⟩ := ih _ false hb2
                refine ⟨b', hb', ?_⟩
                rw [countInvoke_append, countInvoke_cons_invoke_self,
                  countInvoke_append, countInvoke_ite_err, hcnt2]
                simp only [Bool.toNat_false, Bool.toNat_true] at hle3 ⊢
                omega
              · cases ho : c.once with
                | false =>
                    rw [runSnapWith_cons_plain f args s i t hfc hcc ho]
                    obtain ⟨b2, hb2, hle2⟩ := runActsWith_oncePres cid f hf
                      c.prog s b h
                    obtain ⟨b', hb', hle3⟩ := ih _ b2 hb2
                    refine ⟨b', hb', ?_⟩
                    rw [countInvoke_append, countInvoke_cons_invoke_ne hi,
                      countInvoke_append, countInvoke_ite_err]
                    omega
                | true =>
                    rw [runSnapWith_cons_once f args s i t hfc hcc ho]
                    have h1 : onceState (disconnectConn s i) cid = some b := by
                      rw [onceState_disconnectConn_ne i (fun he => hi he.symm)]
                      exact h
                    obtain ⟨b2, hb2, hle2⟩ := runActsWith_oncePres cid f hf
                      c.prog (disconnectConn s i) b h1
                    obtain ⟨b', hb', hle3⟩ := ih _ b2 hb2
                    refine ⟨b', hb', ?_⟩
                    rw [countInvoke_append, countInvoke_cons_invoke_ne hi,
                      countInvoke_append, countInvoke_ite_err]
                    omega

lemma runFire_oncePres (cid : Nat) : ∀ fuel, OncePres cid (runFire fuel) := by
  intro fuel
  induction fuel with
  | zero => intro s v b h; exact ⟨b, h, by simp [runFire, countInvoke_nil]⟩
  | succ n ih =>
      intro s v b h
      obtain ⟨b', hb', hle⟩ := runSnapWith_oncePres cid (runFire n) ih v
        (registryIds s) s b h
      refine ⟨b', ?_, ?_⟩
      · rw [runFire]
        exact hb'
      · rw [runFire]
        show countInvoke cid
            ((runSnapWith (runFire n) v s (registryIds s)).2 ++
              (runSnapWith (runFire n) v s (registryIds s)).1.waiters.map
                (fun w => Event.resolve w v)) + b'.toNat ≤ b.toNat
        rw [countInvoke_append, countInvoke_resolves]
        omega

lemma runOp_wait_connections (fuel : Nat) (s : Sig) :
    (runOp fuel s Op.wait).1.connections = s.connections := by
  by_cases ha : s.active = true <;> simp [runOp, ha]

lemma runOp_oncePres (cid : Nat) (fuel : Nat) (op : Op) (s : Sig) (b : Bool)
    (h : onceState s cid = some b) :
    ∃ b', onceState (runOp fuel s op).1 cid = some b' ∧
      countInvoke cid (runOp fuel s op).2 + b'.toNat ≤ b.toNat := by
  cases op with
  | connect o p =>
      exact ⟨b, onceState_connectOp o p h, by simp [runOp, countInvoke_nil]⟩
  | disconnect j =>
      by_cases hj : cid = j
      · subst hj
        exact ⟨false, onceState_disconnectConn_self h,
          by simp [runOp, countInvoke_nil]⟩
      · refine ⟨b, ?_, by simp [runOp, countInvoke_nil]⟩
        show onceState (disconnectConn s j) cid = some b
        rw [onceState_disconnectConn_ne j hj]
        exact h
  | wait =>
      refine ⟨b, ?_, ?_⟩
      · rw [onceState_congr_connections cid (runOp_wait_connections fuel s)]
        exact h
      · by_cases ha : s.active = true <;>
          simp [runOp, ha, countInvoke, List.countP_cons, isInvokeOf]
  | fire args =>
      by_cases ha : s.active = true
      · have heq : runOp fuel s (Op.fire args) = runFire fuel s args := by
          simp [runOp, ha]
        rw [heq]
        exact runFire_oncePres cid fuel s args b h
      · have heq : runOp fuel s (Op.fire args) = (s, []) := by
          simp [runOp, ha]
        rw [heq]
        exact ⟨b, h, by simp [countInvoke_nil]⟩
  | disconnectAll =>
      exact ⟨false, onceState_disconnectAllOp h, by simp [runOp, countInvoke_nil]⟩
  | destroy =>
      refine ⟨false, ?_, ?_⟩
      · show onceState (destroyOp s).1 cid = some false
        rw [onceState_congr_connections cid (rfl :
          (destroyOp s).1.connections = (disconnectAllOp s).connections)]
        exact onceState_disconnectAllOp h
      · show countInvoke cid (s.waiters.map fun w => Event.waitFailed w) +
            Bool.toNat false ≤ b.toNat
        rw [countInvoke_waitFaileds]
        simp

lemma runOps_oncePres (cid : Nat) (fuel : Nat) :
    ∀ (ops : List Op) (s : Sig) (b : Bool), onceState s cid = some b →
      ∃ b', onceState (runOps fuel s ops).1 cid = some b' ∧
        countInvoke cid (runOps fuel s ops).2 + b'.toNat ≤ b.toNat := by
  intro ops
  induction ops with
  | nil => intro s b h; exact ⟨b, h, by simp [runOps, countInvoke_nil]⟩
  | cons op rest ih =>
      intro s b h
      obtain ⟨b1, hb1, hle1⟩ := runOp_oncePres cid fuel op s b h
      obtain ⟨b', hb', hle2⟩ := ih _ b1 hb1
      refine ⟨b', hb', ?_⟩
      show countInvoke cid ((runOp fuel s op).2 ++
          (runOps fuel (runOp fuel s op).1 rest).2) + b'.toNat ≤ b.toNat
      rw [countInvoke_append]
      omega

/-- C2: a handler registered via `Once` on an active Signal is invoked at
most once over any subsequent operation sequence — including re-entrant
Fires issued from within the handler itself, since the handler's connection
programs and the operation list are arbitrary — and whenever it has been
invoked at all, its connection reports `Connected = false` afterwards (the
connection is disconnected immediately before its single invocation and is
never resurrected). -/
theorem once_invoked_at_most_once (s0 : Sig) (p : List Act) (fuel : Nat)
    (ops : List Op) (hA : s0.active = true) (hB : IdBound s0) :
    countInvoke s0.nextConnId (runOps fuel (connectOp s0 true p).1 ops).2 ≤ 1 ∧
    (1 ≤ countInvoke s0.nextConnId (runOps fuel (connectOp s0 true p).1 ops).2 →
      connConnected (runOps fuel (connectOp s0 true p).1 ops).1 s0.nextConnId
        = false) := by
  have h0 : onceState (connectOp s0 true p).1 s0.nextConnId = some true := by
    unfold onceState
    rw [findConn_connectOp_new s0 true p hB]
    simp [hA]
  obtain ⟨b', hb', hle⟩ :=
    runOps_oncePres s0.nextConnId fuel ops (connectOp s0 true p).1 true h0
  rw [Bool.toNat_true] at hle
  constructor
  · omega
  · intro hge
    have hb'f : b' = false := by
      cases b' with
      | false => rfl
      | true => rw [Bool.toNat_true] at hle; omega
    subst hb'f
    unfold connConnected
    cases hfc : findConn (runOps fuel (connectOp s0 true p).1 ops).1
        s0.nextConnId with
    | none =>
        unfold onceState at hb'
        simp only [hfc] at hb'
        cases hb'
    | some c =>
        exact (onceState_some_once hfc hb').2

/-- Witness for C2: a `Once` handler whose body re-entrantly fires the very
signal it is registered on; across two further Fires it is invoked exactly
once and its connection reads disconnected afterwards. -/
theorem once_invoked_at_most_once_witness :
    countInvoke 0 (runOps 5 (connectOp sigInit true [Act.fire []]).1
      [Op.fire [Val.num 1], Op.fire [Val.num 2]]).2 ≤ 1 ∧
    (1 ≤ countInvoke 0 (runOps 5 (connectOp sigInit true [Act.fire []]).1
        [Op.fire [Val.num 1], Op.fire [Val.num 2]]).2 →
      connConnected (runOps 5 (connectOp sigInit true [Act.fire []]).1
        [Op.fire [Val.num 1], Op.fire [Val.num 2]]).1 0 = false) :=
  once_invoked_at_most_once sigInit [Act.fire []] 5
    [Op.fire [Val.num 1], Op.fire [Val.num 2]] (by decide) (by decide)

/-! ## C4 — Fire dispatches against the snapshot taken at call time -/

/-- Every registered handler body is snapshot-safe (no re-entrant Fire, and
any connection it registers mid-dispatch carries a passive body). -/
def AllSnapSafe (s : Sig) : Prop := ∀ c ∈ s.connections, snapSafeProg c.prog = true

instance (s : Sig) : Decidable (AllSnapSafe s) := by
  unfold AllSnapSafe
  infer_instance

lemma passive_snapSafe {p : List Act} (hp : passiveProg p = true) :
    snapSafeProg p = true := by
  unfold passiveProg at hp
  unfold snapSafeProg
  rw [List.all_eq_true] at hp ⊢
  intro a ha
  have h := hp a ha
  cases a with
  | nop => rfl
  | throwErr => rfl
  | disconnect cid => exact absurd h (by simp [passiveAct])
  | connectNew o q => exact absurd h (by simp [passiveAct])
  | fire v => exact absurd h (by simp [passiveAct])

lemma allSnapSafe_disconnectConn {s : Sig} (j : Nat) (h : AllSnapSafe s) :
    AllSnapSafe (disconnectConn s j) := by
  intro c hc
  have hc' : c ∈ s.connections.map
      (fun d => if d.id == j then { d with connected := false } else d) := hc
  obtain ⟨d, hd, rfl⟩ := List.mem_map.mp hc'
  by_cases hid : (d.id == j) = true
  · rw [if_pos hid]
    exact h d hd
  · rw [if_neg hid]
    exact h d hd

lemma allSnapSafe_connectOp {s : Sig} (o : Bool) {q : List Act}
    (hq : snapSafeProg q = true) (h : AllSnapSafe s) :
    AllSnapSafe (connectOp s o q).1 := by
  intro c hc
  have hc' : c ∈ s.connections ++ [⟨s.nextConnId, o, s.active, q⟩] := hc
  rcases List.mem_append.mp hc' with h' | h'
  · exact h c h'
  · rw [List.mem_singleton.mp h']
    exact hq

lemma runActsWith_snapSafe (f : FireFn) :
    ∀ (p : List Act) (s : Sig), AllSnapSafe s → snapSafeProg p = true →
      (runActsWith f s p).2.1 = [] ∧ AllSnapSafe (runActsWith f s p).1 := by
  intro p
  induction p with
  | nil => intro s hs _; exact ⟨rfl, hs⟩
  | cons a t ih =>
      intro s hs hp
      rw [snapSafeProg, List.all_cons, Bool.and_eq_true] at hp
      cases a with
      | nop => rw [runActsWith]; exact ih s hs hp.2
      | throwErr => rw [runActsWith]; exact ⟨rfl, hs⟩
      | disconnect j =>
          rw [runActsWith]
          exact ih _ (allSnapSafe_disconnectConn j hs) hp.2
      | connectNew o q =>
          rw [runActsWith]
          have hq : snapSafeProg q = true :=
            passive_snapSafe (by simpa [snapSafeAct] using hp.1)
          exact ih _ (allSnapSafe_connectOp o hq hs) hp.2
      | fire v => exact absurd hp.1 (by simp [snapSafeAct])

lemma runSnapWith_snapSafe_events (f : FireFn) (args : List Val) :
    ∀ (ids : List Nat) (s : Sig), AllSnapSafe s →
      ∀ e ∈ (runSnapWith f args s ids).2,
        ∃ i ∈ ids, e = Event.invoke i args ∨ e = Event.handlerError i := by
  intro ids
  induction ids with
  | nil =>
      intro s _ e he
      rw [runSnapWith] at he
      cases he
  | cons i t ih =>
      intro s hs e he
      cases hfc : findConn s i with
      | none =>
          rw [runSnapWith_cons_none f args s i t hfc] at he
          obtain ⟨j, hj, hor⟩ := ih s hs e he
          exact ⟨j, List.mem_cons_of_mem _ hj, hor⟩
      | some c =>
          have hcp : snapSafeProg c.prog = true := hs c (findConn_mem hfc)
          cases hcc : c.connected with
          | false =>
              rw [runSnapWith_cons_dead f args s i t hfc hcc] at he
              obtain ⟨j, hj, hor⟩ := ih s hs e he
              exact ⟨j, List.mem_cons_of_mem _ hj, hor⟩
          | true =>
              cases ho : c.once with
              | false =>
                  rw [runSnapWith_cons_plain f args s i t hfc hcc ho] at he
                  obtain ⟨hh, hs2⟩ := runActsWith_snapSafe f c.prog s hs hcp
                  rw [hh] at he
                  rcases List.mem_append.mp he with h' | h'
                  · rcases List.mem_cons.mp h' with h'' | h''
                    · exact ⟨i, List.mem_cons_self i t, Or.inl h''⟩
                    · rw [List.nil_append] at h''
                      refine ⟨i, List.mem_cons_self i t, Or.inr ?_⟩
                      cases hb : (runActsWith f s c.prog).2.2 <;> rw [hb] at h''
                      · cases h''
                      · exact List.mem_singleton.mp h''
                  · obtain ⟨j, hj, hor⟩ := ih _ hs2 e h'
                    exact ⟨j, List.mem_cons_of_mem _ hj, hor⟩
              | true =>
                  rw [runSnapWith_cons_once f args s i t hfc hcc ho] at he
                  have hs1 : AllSnapSafe (disconnectConn s i) :=
                    allSnapSafe_disconnectConn i hs
                  obtain ⟨hh, hs2⟩ :=
                    runActsWith_snapSafe f c.prog (disconnectConn s i) hs1 hcp
                  rw [hh] at he
                  rcases List.mem_append.mp he with h' | h'
                  · rcases List.mem_cons.mp h' with h'' | h''
                    · exact ⟨i, List.mem_cons_self i t, Or.inl h''⟩
                    · rw [List.nil_append] at h''
                      refine ⟨i, List.mem_cons_self i t, Or.inr ?_⟩
                      cases hb : (runActsWith f (disconnectConn s i) c.prog).2.2 <;>
                        rw [hb] at h''
                      · cases h''
                      · exact List.mem_singleton.mp h''
                  · obtain ⟨j, hj, hor⟩ := ih _ hs2 e h'
                    exact ⟨j, List.mem_cons_of_mem _ hj, hor⟩

/-- Does this handler body execute `disconnect j` before raising any error,
so that whenever the body runs, connection `j` is certainly disconnected by
the end of the body? -/
def disconnectsBeforeThrow : List Act → Nat → Bool
  | [], _ => false
  | Act.throwErr :: _, _ => false
  | Act.disconnect k :: rest, j => k == j || disconnectsBeforeThrow rest j
  | _ :: rest, j => disconnectsBeforeThrow rest j

/-- Does the handler of connection `i` (if any) disconnect `j` before any
error? -/
def disconnectsAt (s : Sig) (i j : Nat) : Bool :=
  match findConn s i with
  | some c => disconnectsBeforeThrow c.prog j
  | none => false

lemma keeps_disconnected_disconnectConn {s : Sig} {j : Nat} {c : Conn}
    (k : Nat) (hfc : findConn s j = some c) (hcf : c.connected = false) :
    ∃ c', findConn (disconnectConn s k) j = some c' ∧ c'.connected = false := by
  rw [findConn_disconnectConn, hfc, Option.map_some']
  by_cases hk : (c.id == k) = true
  · rw [if_pos hk]
    exact ⟨_, rfl, rfl⟩
  · rw [if_neg hk]
    exact ⟨c, rfl, hcf⟩

lemma runActsWith_keeps_disconnected (f : FireFn) {j : Nat} :
    ∀ (p : List Act) (s : Sig), snapSafeProg p = true →
      (∃ c, findConn s j = some c ∧ c.connected = false) →
      ∃ c, findConn (runActsWith f s p).1 j = some c ∧ c.connected = false := by
  intro p
  induction p with
  | nil => intro s _ h; exact h
  | cons a t ih =>
      intro s hp h
      rw [snapSafeProg, List.all_cons, Bool.and_eq_true] at hp
      obtain ⟨c, hfc, hcf⟩ := h
      cases a with
      | nop => rw [runActsWith]; exact ih s hp.2 ⟨c, hfc, hcf⟩
      | throwErr => rw [runActsWith]; exact ⟨c, hfc, hcf⟩
      | disconnect k =>
          rw [runActsWith]
          exact ih _ hp.2 (keeps_disconnected_disconnectConn k hfc hcf)
      | connectNew o q =>
          rw [runActsWith]
          refine ih _ hp.2 ⟨c, ?_, hcf⟩
          rw [findConn_connectOp o q (by rw [hfc]; rfl)]
          exact hfc
      | fire v => exact absurd hp.1 (by simp [snapSafeAct])

lemma runActsWith_disconnects (f : FireFn) {j : Nat} :
    ∀ (p : List Act) (s : Sig), snapSafeProg p = true →
      disconnectsBeforeThrow p j = true →
      (findConn s j).isSome = true →
      ∃ c, findConn (runActsWith f s p).1 j = some c ∧ c.connected = false := by
  intro p
  induction p with
  | nil =>
      intro s _ hd _
      simp [disconnectsBeforeThrow] at hd
  | cons a t ih =>
      intro s hp hd hsome
      rw [snapSafeProg, List.all_cons, Bool.and_eq_true] at hp
      cases a with
      | nop =>
          rw [runActsWith]
          exact ih s hp.2 (by simpa [disconnectsBeforeThrow] using hd) hsome
      | throwErr => simp [disconnectsBeforeThrow] at hd
      | disconnect k =>
          rw [runActsWith]
          by_cases hk : k = j
          · subst hk
            obtain ⟨c, hfc⟩ := Option.isSome_iff_exists.mp hsome
            have hplus : ∃ c', findConn (disconnectConn s k) k = some c' ∧
                c'.connected = false := by
              rw [findConn_disconnectConn, hfc, Option.map_some']
              have hid : c.id = k := findConn_id hfc
              rw [if_pos (by simp [hid])]
              exact ⟨_, rfl, rfl⟩
            exact runActsWith_keeps_disconnected f t _ hp.2 hplus
          · have hkb : (k == j) = false := by simp [hk]
            have hd' : disconnectsBeforeThrow t j = true := by
              simpa [disconnectsBeforeThrow, hkb] using hd
            refine ih _ hp.2 hd' ?_
            rw [findConn_disconnectConn_ne s (fun he => hk he.symm)]
            exact hsome
      | connectNew o q =>
          rw [runActsWith]
          refine ih _ hp.2 (by simpa [disconnectsBeforeThrow] using hd) ?_
          rw [findConn_connectOp o q hsome]
          exact hsome
      | fire v => exact absurd hp.1 (by simp [snapSafeAct])

lemma runSnapWith_skips_disconnected (f : FireFn) (args : List Val) {j : Nat} :
    ∀ (ids : List Nat) (s : Sig), AllSnapSafe s →
      (∃ c, findConn s j = some c ∧ c.connected = false) →
      ∀ a, Event.invoke j a ∉ (runSnapWith f args s ids).2 := by
  intro ids
  induction ids with
  | nil =>
      intro s _ _ a hmem
      rw [runSnapWith] at hmem
      cases hmem
  | cons i t ih =>
      intro s hS hP a hmem
      obtain ⟨cj, hfcj, hcjf⟩ := hP
      cases hfc : findConn s i with
      | none =>
          rw [runSnapWith_cons_none f args s i t hfc] at hmem
          exact ih s hS ⟨cj, hfcj, hcjf⟩ a hmem
      | some c =>
          cases hcc : c.connected with
          | false =>
              rw [runSnapWith_cons_dead f args s i t hfc hcc] at hmem
              exact ih s hS ⟨cj, hfcj, hcjf⟩ a hmem
          | true =>
              have hij : i ≠ j := by
                intro he
                subst he
                rw [hfc] at hfcj
                injection hfcj with he'
                rw [← he'] at hcjf
                rw [hcc] at hcjf
                cases hcjf
              have hcp : snapSafeProg c.prog = true := hS c (findConn_mem hfc)
              cases ho : c.once with
              | false =>
                  rw [runSnapWith_cons_plain f args s i t hfc hcc ho] at hmem
                  obtain ⟨hh, hs2⟩ := runActsWith_snapSafe f c.prog s hS hcp
                  rw [hh] at hmem
                  rcases List.mem_append.mp hmem with h' | h'
                  · rcases List.mem_cons.mp h' with h'' | h''
                    · injection h'' with h1 _
                      exact hij h1.symm
                    · rw [List.nil_append] at h''
                      cases hb : (runActsWith f s c.prog).2.2 <;> rw [hb] at h''
                      · cases h''
                      · cases List.mem_singleton.mp h''
                  · exact ih _ hs2 (runActsWith_keeps_disconnected f c.prog s hcp
                      ⟨cj, hfcj, hcjf⟩) a h'
              | true =>
                  rw [runSnapWith_cons_once f args s i t hfc hcc ho] at hmem
                  have hP1 : ∃ c', findConn (disconnectConn s i) j = some c' ∧
                      c'.connected = false := by
                    rw [findConn_disconnectConn_ne s (fun he => hij he.symm)]
                    exact ⟨cj, hfcj, hcjf⟩
                  have hS1 : AllSnapSafe (disconnectConn s i) :=
                    allSnapSafe_disconnectConn i hS
                  obtain ⟨hh, hs2⟩ := runActsWith_snapSafe f c.prog
                    (disconnectConn s i) hS1 hcp
                  rw [hh] at hmem
                  rcases List.mem_append.mp hmem with h' | h'
                  · rcases List.mem_cons.mp h' with h'' | h''
                    · injection h'' with h1 _
                      exact hij h1.symm
                    · rw [List.nil_append] at h''
                      cases hb : (runActsWith f (disconnectConn s i) c.prog).2.2 <;>
                        rw [hb] at h''
                      · cases h''
                      · cases List.mem_singleton.mp h''
                  · exact ih _ hs2 (runActsWith_keeps_disconnected f c.prog
                      (disconnectConn s i) hcp hP1) a h'

/-- C4: Fire dispatches against the immutable snapshot taken at call time,
stated generally for snapshot-safe handlers (no re-entrant Fire).
(1) Additions: a connection id not yet handed out when the Fire starts — in
particular any connection registered by a handler during the Fire — receives
no invocation from that Fire.
(2) Removals, universally over every mid-dispatch configuration: a Fire's
dispatch runs `runSnapWith (runFire fuel) args` over the snapshot, reaching
configurations (current state `s`, remaining not-yet-reached snapshot part
`ids`); at every such configuration, a connection that is currently
disconnected receives no invocation from the rest of the dispatch, even when
its id still appears in `ids` — i.e. in the snapshot.
(3) End to end, universally over signals, handlers and arguments: if the
first snapshot entry's handler disconnects connection `j` before raising any
error, the whole Fire never invokes `j`, although `j` may have been in the
snapshot.
(4) The spec's concrete scenario, computed: handler 0 disconnects handler 2
mid-dispatch; the Fire invokes exactly handlers 0 and 1. -/
theorem fire_snapshot_semantics (fuel : Nat) (args : List Val) :
    (∀ (s : Sig) (cid : Nat), AllSnapSafe s → IdBound s → s.nextConnId ≤ cid →
      ∀ a, Event.invoke cid a ∉ (runFire fuel s args).2) ∧
    (∀ (s : Sig) (ids : List Nat) (j : Nat), AllSnapSafe s →
      (∃ c, findConn s j = some c ∧ c.connected = false) →
      ∀ a, Event.invoke j a ∉ (runSnapWith (runFire fuel) args s ids).2) ∧
    (∀ (s : Sig) (i : Nat) (l2 : List Nat) (j : Nat),
      registryIds s = i :: l2 → AllSnapSafe s →
      (s.connections.map Conn.id).Nodup → disconnectsAt s i j = true →
      j ≠ i →
      ∀ a, Event.invoke j a ∉ (runFire (fuel + 1) s args).2) ∧
    (runOps 1 sigInit
        [Op.connect false [Act.disconnect 2], Op.connect false [],
         Op.connect false [], Op.fire [Val.num 7]]).2 =
      [Event.invoke 0 [Val.num 7], Event.invoke 1 [Val.num 7]] := by
  refine ⟨?_, ?_, ?_, by decide⟩
  · intro s cid hS hB hcid a hmem
    cases fuel with
    | zero =>
        rw [runFire] at hmem
        cases hmem
    | succ n =>
        rw [runFire] at hmem
        have hmem' : Event.invoke cid a ∈
            (runSnapWith (runFire n) args s (registryIds s)).2 ++
              (runSnapWith (runFire n) args s (registryIds s)).1.waiters.map
                (fun w => Event.resolve w args) := hmem
        rcases List.mem_append.mp hmem' with h' | h'
        · obtain ⟨i, hi, hor⟩ :=
            runSnapWith_snapSafe_events (runFire n) args (registryIds s) s hS _ h'
          have hilt : i < s.nextConnId := by
            obtain ⟨c, hcmem, hcid'⟩ := List.mem_map.mp hi
            have := hB c (List.mem_of_mem_filter hcmem)
            rw [hcid'] at this
            exact this
          rcases hor with he | he
          · injection he with h1 _
            omega
          · cases he
        · obtain ⟨w, _, heq⟩ := List.mem_map.mp h'
          cases heq
  · intro s ids j hS hP
    exact runSnapWith_skips_disconnected (runFire fuel) args ids s hS hP
  · intro s i l2 j hreg hS hN hd hij a hmem
    rw [runFire] at hmem
    have hmem' : Event.invoke j a ∈
        (runSnapWith (runFire fuel) args s (registryIds s)).2 ++
          (runSnapWith (runFire fuel) args s (registryIds s)).1.waiters.map
            (fun w => Event.resolve w args) := hmem
    rcases List.mem_append.mp hmem' with h' | h'
    · rw [hreg] at h'
      have hi : i ∈ registryIds s := by
        rw [hreg]
        exact List.mem_cons_self i l2
      obtain ⟨ci, hfci, hcci, _⟩ := registryIds_sound hN hi
      have hdb : disconnectsBeforeThrow ci.prog j = true := by
        unfold disconnectsAt at hd
        simp only [hfci] at hd
        exact hd
      have hcp : snapSafeProg ci.prog = true := hS ci (findConn_mem hfci)
      cases ho : ci.once with
      | false =>
          rw [runSnapWith_cons_plain (runFire fuel) args s i l2 hfci hcci ho]
            at h'
          obtain ⟨hh, hs2⟩ :=
            runActsWith_snapSafe (runFire fuel) ci.prog s hS hcp
          rw [hh] at h'
          rcases List.mem_append.mp h' with h'' | h''
          · rcases List.mem_cons.mp h'' with h3 | h3
            · injection h3 with h4 _
              exact hij h4
            · rw [List.nil_append] at h3
              cases hb : (runActsWith (runFire fuel) s ci.prog).2.2 <;>
                rw [hb] at h3
              · cases h3
              · cases List.mem_singleton.mp h3
          · obtain ⟨j', hj', hor⟩ := runSnapWith_snapSafe_events (runFire fuel)
              args l2 _ hs2 _ h''
            have hjl2 : j ∈ l2 := by
              rcases hor with he | he
              · injection he with h4 _
                rw [h4]
                exact hj'
              · cases he
            have hjreg : j ∈ registryIds s := by
              rw [hreg]
              exact List.mem_cons_of_mem _ hjl2
            obtain ⟨cj, hfcj, _, _⟩ := registryIds_sound hN hjreg
            have hP2 := runActsWith_disconnects (runFire fuel) ci.prog s hcp hdb
              (by rw [hfcj]; rfl)
            exact runSnapWith_skips_disconnected (runFire fuel) args l2 _
              hs2 hP2 a h''
      | true =>
          rw [runSnapWith_cons_once (runFire fuel) args s i l2 hfci hcci ho]
            at h'
          have hS1 : AllSnapSafe (disconnectConn s i) :=
            allSnapSafe_disconnectConn i hS
          obtain ⟨hh, hs2⟩ := runActsWith_snapSafe (runFire fuel) ci.prog
            (disconnectConn s i) hS1 hcp
          rw [hh] at h'
          rcases List.mem_append.mp h' with h'' | h''
          · rcases List.mem_cons.mp h'' with h3 | h3
            · injection h3 with h4 _
              exact hij h4
            · rw [List.nil_append] at h3
              cases hb : (runActsWith (runFire fuel) (disconnectConn s i)
                  ci.prog).2.2 <;> rw [hb] at h3
              · cases h3
              · cases List.mem_singleton.mp h3
          · obtain ⟨j', hj', hor⟩ := runSnapWith_snapSafe_events (runFire fuel)
              args l2 _ hs2 _ h''
            have hjl2 : j ∈ l2 := by
              rcases hor with he | he
              · injection he with h4 _
                rw [h4]
                exact hj'
              · cases he
            have hjreg : j ∈ registryIds s := by
              rw [hreg]
              exact List.mem_cons_of_mem _ hjl2
            obtain ⟨cj, hfcj, _, _⟩ := registryIds_sound hN hjreg
            have hsome1 : (findConn (disconnectConn s i) j).isSome = true := by
              rw [findConn_disconnectConn_ne s (fun he => hij he)]
              rw [hfcj]
              rfl
            have hP2 := runActsWith_disconnects (runFire fuel) ci.prog
              (disconnectConn s i) hcp hdb hsome1
            exact runSnapWith_skips_disconnected (runFire fuel) args l2 _
              hs2 hP2 a h''
    · obtain ⟨w, _, heq⟩ := List.mem_map.mp h'
      cases heq

/-- Witness for C4: (additions) a signal with one handler (id 0) that
connects a new handler during dispatch — the fresh id 1 receives no
invocation from that Fire; (removals) a signal with handlers 0, 1, 2 where
handler 0's body disconnects handler 2 — the Fire never invokes handler 2,
although it was in the snapshot. -/
theorem fire_snapshot_semantics_witness :
    Event.invoke 1 [] ∉
      (runFire 2 (⟨[⟨0, false, true, [Act.connectNew false []]⟩], [], true, 1, 0⟩
        : Sig) [Val.num 9]).2 ∧
    Event.invoke 2 [] ∉
      (runFire 1 (⟨[⟨0, false, true, [Act.disconnect 2]⟩, ⟨1, false, true, []⟩,
          ⟨2, false, true, []⟩], [], true, 3, 0⟩ : Sig) [Val.num 7]).2 :=
  ⟨(fire_snapshot_semantics 2 [Val.num 9]).1
      (⟨[⟨0, false, true, [Act.connectNew false []]⟩], [], true, 1, 0⟩ : Sig) 1
      (by decide) (by decide) (by decide) [],
   (fire_snapshot_semantics 0 [Val.num 7]).2.2.1
      (⟨[⟨0, false, true, [Act.disconnect 2]⟩, ⟨1, false, true, []⟩,
        ⟨2, false, true, []⟩], [], true, 3, 0⟩ : Sig) 0 [1, 2] 2
      (by decide) (by decide) (by decide) (by decide) (by decide) []⟩

/-! ## C10 — the static Is check recognises exactly Signal instances -/

/-- C10: `Is` returns true on every actual Signal instance and false on every
other runtime value — including a structurally similar table that carries the
class-name string "ScriptSignal" — since it is an identity/tag check, not a
shape check. -/
theorem is_exactly_signal_instances :
    (∀ s : Sig, Is (RtValue.signal s) = true) ∧
    (∀ v : RtValue, (∀ s : Sig, v ≠ RtValue.signal s) → Is v = false) ∧
    Is (RtValue.table "ScriptSignal") = false := by
  refine ⟨fun s => rfl, ?_, rfl⟩
  intro v hv
  cases v with
  | signal s => exact absurd rfl (hv s)
  | table cn => rfl
  | other n => rfl

/-- Witness for C10: `Is` accepts a fresh Signal and rejects a non-Signal
value (a "Janitor" table). -/
theorem is_exactly_signal_instances_witness :
    Is (RtValue.signal sigInit) = true ∧ Is (RtValue.table "Janitor") = false :=
  ⟨is_exactly_signal_instances.1 sigInit,
   is_exactly_signal_instances.2.1 (RtValue.table "Janitor")
     (fun _ h => RtValue.noConfusion h)⟩

end FastSignal
